import Mathlib

/-!
Verification of the `ay` tree-walking Lua runtime (evaluation engine core).

The development shallowly embeds the Python sources under `src/src/ay/`:
`values.py` (value model, `LuaTable`), and `ast_nodes.py` (the AST evaluator).
Modules of the repository that are not present under `src/` (`ay/scope.py`,
`ay/operations.py`, `ay/control_structures.py`, and `LuaFunction.call`) are
modelled from the specification; each such definition carries a doc comment
starting with "Modelled from the spec:".

Machine integers are modelled as `Int` with explicit two's-complement
wrap-around where the source wraps. IEEE doubles are modelled abstractly:
the verified claims rely only on `nan` comparing unequal to every float
(itself included), on `is_integer`, and on the exact values of integral
floats, so finite doubles are carried as rationals.
-/

namespace AyEmbed

/-- Floating payload of a `LuaNumber` of kind FLOAT (from `values.py`).
`nan` is a distinguished element; finite doubles are modelled as rationals
(exact for every value the claims exercise). -/
inductive LFloat where
| nan : LFloat
| fin (q : ℚ) : LFloat
deriving DecidableEq

/-- Number model of `LuaNumber` (`values.py`): the kind tag INTEGER/FLOAT is
load-bearing; an INTEGER carries an unbounded (Python) integer, a FLOAT a
double. -/
inductive LuaNum where
| int (i : ℤ) : LuaNum
| float (f : LFloat) : LuaNum
deriving DecidableEq

/-- Constant `MAX_INT64` from `values.py`. -/
def MAX_INT64 : ℤ := 2 ^ 63 - 1

/-- Constant `MIN_INT64` from `values.py`. -/
def MIN_INT64 : ℤ := -(2 ^ 63)

/-- Python `==` on floats (IEEE): `nan` is unequal to every float, finite
values compare by value. Embeds the comparison `key.value == float("nan")`
in `LuaTable.put`. -/
def LFloat.ieeeEq : LFloat → LFloat → Bool
| .fin a, .fin b => a == b
| _, _ => false

/-- Python `float.is_integer`: false for `nan`, true for finite values with
no fractional part. -/
def LFloat.isInteger : LFloat → Bool
| .nan => false
| .fin q => q.den == 1

/-- Python `int(f)`; the source only applies it after `is_integer()` holds,
where the numerator is the exact value. -/
def LFloat.toInt : LFloat → ℤ
| .nan => 0
| .fin q => q.num

/-- Mathematical value of a number, `none` for `nan`. Numeric comparison in
the runtime (the `rel_eq` behind `LuaValue.__eq__`, spec 4.2) compares
mathematical values across the Integer/Float tower. -/
def LuaNum.toQ : LuaNum → Option ℚ
| .int i => some (i : ℚ)
| .float .nan => none
| .float (.fin q) => some q

mutual

/-- Expression nodes from `ast_nodes.py` exercised by the claims.
`numeralDec` is the integer-only `NumeralDec` (no fraction/exponent parts);
`litStr` is `ParsedLiteralLuaStringExpr`; `funcBody` is `FuncBody` (whose
wrapper `FuncDef.evaluate` just delegates); `unaryNeg` is `UnaryOperation`
with the NEG operator. -/
inductive Expression where
| numeralDec (digits : ℕ)
| litNil
| litTrue
| litFalse
| litStr (s : String)
| varName (name : String)
| varIndex (base index : Expression)
| tableCons (fields : List Field)
| funcBody (params : List String) (variadic : Bool) (body : Block)
| callRegular (name : Expression) (args : List Expression)
| callMethod (obj : Expression) (method : String) (args : List Expression)
| unaryNeg (e : Expression)
| paren (e : Expression)

/-- Table-constructor fields from `ast_nodes.py`: `FieldWithKey` with an
expression or a `Name` key, and `FieldCounterKey`. -/
inductive Field where
| withKeyExpr (key value : Expression)
| withKeyName (key : String) (value : Expression)
| counterKey (value : Expression)

/-- Statement nodes from `ast_nodes.py` exercised by the claims.
`callRegularStmt`/`callMethodStmt` are the statement forms of
`FuncCallRegular`/`FuncCallMethod` (which subclass both `Statement` and
`Expression` in the source); `localAssignment` pairs each name with its
optional attribute (`AttributeName`). -/
inductive Statement where
| assignment (targets : List Expression) (exprs : List Expression)
| localAssignment (names : List (String × Option String)) (exprs : List Expression)
| callRegularStmt (name : Expression) (args : List Expression)
| callMethodStmt (obj : Expression) (method : String) (args : List Expression)
| breakStmt
| emptyStmt
| forNum (name : String) (start stop : Expression) (step : Option Expression) (body : Block)

/-- Block node from `ast_nodes.py`: a statement list and an optional
`ReturnStatement` holding the returned expression list. -/
inductive Block where
| mk (stmts : List Statement) (ret : Option (List Expression))

end

/-- Statement list of a block. -/
def Block.stmts : Block → List Statement
| .mk s _ => s

/-- Return statement of a block, if any. -/
def Block.ret : Block → Option (List Expression)
| .mk _ r => r

/-- Closure data of `LuaFunction` (`values.py`): parameter names, variadic
flag, the scope captured at definition time (a scope id), and the body.
Native callables and the cosmetic `name`/`min_req`/`gets_scope` fields are
not modelled (no claim reads them; `FuncBody.evaluate` always builds
closures with `gets_scope=False, min_req=0`). -/
structure FuncV where
  params : List String
  variadic : Bool
  parentScope : ℕ
  block : Block

/-- Runtime values (`values.py`): nil, booleans, numbers, strings (byte
content abstracted to `String`), tables (by heap id — Python object identity)
and functions. Userdata/threads are not exercised by any claim. -/
inductive LuaValue where
| nil
| bool (b : Bool)
| num (n : LuaNum)
| str (s : String)
| table (tid : ℕ)
| func (f : FuncV)

/-- Modelled from the spec: `rel_eq` (`ay/operations.py` is absent from
`src/`), the comparison behind `LuaValue.__eq__` used by Python dict lookup.
Nil/Bool/Number/String compare structurally, numbers by mathematical value
across the Integer/Float tower (`nan` unequal to everything), tables by
identity. Two function values compare by object identity in the source;
identity of function objects is not modelled, so they compare `false` here
(no embedded program compares function values). The metatable `__eq`
override is not modelled (no claim involves it). -/
def luaEq : LuaValue → LuaValue → Bool
| .nil, .nil => true
| .bool a, .bool b => a == b
| .num a, .num b =>
    match a.toQ, b.toQ with
    | some x, some y => x == y
    | _, _ => false
| .str a, .str b => a == b
| .table i, .table j => i == j
| _, _ => false

/-- Table data of `LuaTable` (`values.py`): the insertion-ordered map.
Python object identity is carried by the table id in `LuaValue.table`; the
`_metatable` field is not modelled (no verified operation reads it). -/
structure TableRec where
  map : List (LuaValue × LuaValue)

/-- Python dict lookup keyed by `LuaValue.__eq__`: the value of the first
stored key equal to the query. -/
def mapFind : List (LuaValue × LuaValue) → LuaValue → Option LuaValue
| [], _ => none
| (k, v) :: rest, q => if luaEq k q then some v else mapFind rest q

/-- Python dict item assignment: replace the value at the first equal stored
key (the stored key object is kept), else append a new entry. -/
def mapSet : List (LuaValue × LuaValue) → LuaValue → LuaValue → List (LuaValue × LuaValue)
| [], k, v => [(k, v)]
| (k0, v0) :: rest, k, v =>
    if luaEq k0 k then (k0, v) :: rest else (k0, v0) :: mapSet rest k v

/-- Error channel of the embedded runtime. `notImpl` is a raised
`NotImplementedError`, `assertFail` a failing `assert`, `brk`/`ret` the
`BreakException`/`ReturnException` control-flow signals (from the
`ay/control_structures.py` module absent from `src/`), `typeE` the
TypeError-kind failure of a modelled operation (spec section 7), `hostCrash`
a host-level crash, and `fuel` means interpretation fuel ran out (an
artefact of the embedding, not a behaviour of the source). -/
inductive Err where
| fuel
| notImpl
| assertFail
| typeE
| hostCrash
| brk
| ret (vals : List LuaValue)

/-- Method `LuaTable.put` (`values.py` lines 188-204), `raw` mode (its only
mode in the snapshot). A nil key raises; the NaN check compares the key with
`float("nan")` using `==` and therefore never fires; a float key with
integral value is normalised to the integer key; finally the entry is stored
(entries assigned nil are kept, per the comment in the source). -/
def tablePut (t : TableRec) (key value : LuaValue) : Except Err TableRec :=
  match key with
  | .nil => .error .notImpl
  | .num (.float f) =>
      if f.ieeeEq .nan then .error .notImpl
      else if f.isInteger then .ok ⟨mapSet t.map (.num (.int f.toInt)) value⟩
      else .ok ⟨mapSet t.map key value⟩
  | _ => .ok ⟨mapSet t.map key value⟩

/-- Method `LuaTable.get` (`values.py` lines 207-212), `raw` mode: the
stored value when the key is present, else nil. -/
def tableGet (t : TableRec) (key : LuaValue) : LuaValue :=
  match mapFind t.map key with
  | some v => v
  | none => .nil

/-- Method `LuaTable.has` (`values.py` lines 217-218): key containment. -/
def tableHas (t : TableRec) (key : LuaValue) : Bool :=
  (mapFind t.map key).isSome

/-- Keys with the same equality behaviour address the same dict slot:
setting under `k` and reading under `k'` yields the stored value. -/
theorem mapFind_mapSet (m : List (LuaValue × LuaValue)) (k k' v : LuaValue)
    (hkk : luaEq k k' = true) (hcong : ∀ s, luaEq s k = luaEq s k') :
    mapFind (mapSet m k v) k' = some v := by
  induction m with
  | nil => simp [mapSet, mapFind, hkk]
  | cons hd tl ih =>
      obtain ⟨k0, v0⟩ := hd
      by_cases h : luaEq k0 k = true
      · have h2 : luaEq k0 k' = true := (hcong k0) ▸ h
        simp only [mapSet, mapFind, h, h2, if_true]
      · have h' : luaEq k0 k' ≠ true := by
          rw [← hcong k0]
          exact h
        simp [mapSet, h, mapFind, h', ih]

/-- No stored key is ever equal to a NaN float key. -/
theorem luaEq_nan_right (s : LuaValue) :
    luaEq s (.num (.float .nan)) = false := by
  cases s with
  | num n => simp [luaEq, LuaNum.toQ]
  | nil => rfl
  | bool b => rfl
  | str a => rfl
  | table i => rfl
  | func f => rfl

/-- Number keys with the same mathematical value behave identically on the
right of the dict equality. -/
theorem luaEq_num_congr (a b : LuaNum) (h : a.toQ = b.toQ) (s : LuaValue) :
    luaEq s (.num a) = luaEq s (.num b) := by
  cases s with
  | num n => simp only [luaEq, h]
  | nil => rfl
  | bool c => rfl
  | str c => rfl
  | table i => rfl
  | func f => rfl

/-- Two number keys with the same (defined) mathematical value compare
equal. -/
theorem luaEq_num_of_toQ (a b : LuaNum) (q : ℚ) (ha : a.toQ = some q)
    (hb : b.toQ = some q) : luaEq (.num a) (.num b) = true := by
  simp only [luaEq, ha, hb, beq_self_eq_true]

/-- Claim C3. The source does fail (with a placeholder
`NotImplementedError`) on a nil key, but the NaN guard in `LuaTable.put`
compares the key with `float("nan")` using `==`, which no float satisfies,
so a NaN float key raises nothing: the entry is stored under the NaN key.
This theorem evaluates `put` at the failing input: putting `"v"` under a NaN
key into an empty table succeeds and stores the pair. -/
theorem c3_nan_key_put_succeeds :
    tablePut ⟨[]⟩ (.num (.float .nan)) (.str ("v"))
      = .ok ⟨[(.num (.float .nan), .str ("v"))]⟩
    ∧ tablePut ⟨[]⟩ .nil (.str ("v")) = .error .notImpl := by
  exact ⟨rfl, rfl⟩

/-- Claim C7: a float key whose value is exactly representable as an
integer is normalised to the integer key before storage, and lookup compares
numbers by mathematical value, so the float key and the integer key address
the same slot in both directions. -/
theorem c7_float_key_normalisation (t : TableRec) (q : ℚ) (v : LuaValue)
    (h : q.den = 1) :
    (tablePut t (.num (.float (.fin q))) v).map
        (fun u => tableGet u (.num (.int q.num))) = .ok v
    ∧ (tablePut t (.num (.int q.num)) v).map
        (fun u => tableGet u (.num (.float (.fin q)))) = .ok v := by
  have hq : ((q.num : ℚ)) = q := Rat.coe_int_num_of_den_eq_one h
  have htoq : (LuaNum.int q.num).toQ = (LuaNum.float (.fin q)).toQ := by
    simp only [LuaNum.toQ, hq]
  constructor
  · have hput : tablePut t (.num (.float (.fin q))) v
        = .ok ⟨mapSet t.map (.num (.int q.num)) v⟩ := by
      simp [tablePut, LFloat.ieeeEq, LFloat.isInteger, h, LFloat.toInt]
    rw [hput]
    simp only [Except.map]
    have := mapFind_mapSet t.map (.num (.int q.num)) (.num (.int q.num)) v
      (luaEq_num_of_toQ _ _ (q.num : ℚ) rfl rfl) (fun s => rfl)
    simp [tableGet, this]
  · have hput : tablePut t (.num (.int q.num)) v
        = .ok ⟨mapSet t.map (.num (.int q.num)) v⟩ := rfl
    rw [hput]
    simp only [Except.map]
    have := mapFind_mapSet t.map (.num (.int q.num)) (.num (.float (.fin q))) v
      (luaEq_num_of_toQ _ _ q (by simp [LuaNum.toQ, hq]) rfl)
      (luaEq_num_congr _ _ htoq)
    simp [tableGet, this]

/-- Conversion used by `recursive_detecting_str` for non-table keys and
values (Python `str()`). Float formatting and the object id inside the
rendering of a function value are not exercised by any claim; floats render
via their rational value and functions as "function". -/
def luaScalarStr : LuaValue → String
| .nil => "nil"
| .bool b => if b then "true" else "false"
| .num (.int i) => toString i
| .num (.float .nan) => "nan"
| .num (.float (.fin q)) => toString q
| .str s => s
| .table _ => ""
| .func _ => "function"

/-- Tasks of the table-rendering recursion: rendering one value, or the
comma-joined body of an entry list. -/
inductive RTask where
| val (v : LuaValue)
| entries (l : List (LuaValue × LuaValue))

/-- Method `LuaTable.recursive_detecting_str` (`values.py` lines 163-185),
with Python object ids realised as table heap ids. The `seen_objects` set is
mutated in place in the source and shared by the whole traversal, so it is
threaded through here: a table whose id is in the set renders as the
placeholder; otherwise its id is added and its entries render as
"(key)=(value)" pairs joined by ", " inside braces. The `fuel` argument
makes the recursion structural; `none` means fuel ran out (the termination
theorem shows enough fuel always exists). -/
def renderGo (heap : List TableRec) : ℕ → RTask → Finset ℕ → Option (String × Finset ℕ)
| 0, _, _ => none
| _ + 1, .val .nil, seen => some (luaScalarStr .nil, seen)
| _ + 1, .val (.bool b), seen => some (luaScalarStr (.bool b), seen)
| _ + 1, .val (.num n), seen => some (luaScalarStr (.num n), seen)
| _ + 1, .val (.str s), seen => some (luaScalarStr (.str s), seen)
| _ + 1, .val (.func f), seen => some (luaScalarStr (.func f), seen)
| fuel + 1, .val (.table tid), seen =>
    if tid ∈ seen then some ("{<...>}", seen)
    else
      match heap[tid]? with
      | none => some ("", insert tid seen)
      | some t =>
          (renderGo heap fuel (.entries t.map) (insert tid seen)).map
            (fun p => ("\x7b" ++ p.1 ++ "\x7d", p.2))
| _ + 1, .entries [], seen => some ("", seen)
| fuel + 1, .entries ((k, v) :: rest), seen =>
    (renderGo heap fuel (.val k) seen).bind (fun p1 =>
      (renderGo heap fuel (.val v) p1.2).bind (fun p2 =>
        (renderGo heap fuel (.entries rest) p2.2).map (fun p3 =>
          (if rest.isEmpty
           then "(" ++ p1.1 ++ ")=(" ++ p2.1 ++ ")"
           else "(" ++ p1.1 ++ ")=(" ++ p2.1 ++ ")" ++ ", " ++ p3.1,
           p3.2))))

/-- More fuel preserves a successful rendering. -/
theorem renderGo_fuel_mono (heap : List TableRec) :
    ∀ (n : ℕ) (t : RTask) (s : Finset ℕ) (out : String × Finset ℕ),
    renderGo heap n t s = some out → renderGo heap (n + 1) t s = some out := by
  intro n
  induction n with
  | zero => intro t s out h; simp [renderGo] at h
  | succ m ih =>
      intro t s out h
      match t with
      | .val .nil => exact h
      | .val (.bool b) => exact h
      | .val (.num nn) => exact h
      | .val (.str c) => exact h
      | .val (.func f) => exact h
      | .val (.table tid) =>
          rw [renderGo] at h ⊢
          by_cases hseen : tid ∈ s
          · rw [if_pos hseen] at h ⊢
            exact h
          · rw [if_neg hseen] at h ⊢
            match hget : heap[tid]? with
            | none =>
                rw [hget] at h
                exact h
            | some tr =>
                rw [hget] at h
                dsimp only at h ⊢
                match hrec : renderGo heap m (.entries tr.map) (insert tid s) with
                | none =>
                    rw [hrec] at h
                    simp at h
                | some p =>
                    rw [hrec] at h
                    rw [ih _ _ _ hrec]
                    exact h
      | .entries [] => exact h
      | .entries ((k, v) :: rest) =>
          rw [renderGo] at h ⊢
          match h1 : renderGo heap m (.val k) s with
          | none =>
              rw [h1] at h
              simp at h
          | some p1 =>
              rw [h1] at h
              rw [ih _ _ _ h1]
              simp only [Option.some_bind] at h ⊢
              match h2 : renderGo heap m (.val v) p1.2 with
              | none =>
                  rw [h2] at h
                  simp at h
              | some p2 =>
                  rw [h2] at h
                  rw [ih _ _ _ h2]
                  simp only [Option.some_bind] at h ⊢
                  match h3 : renderGo heap m (.entries rest) p2.2 with
                  | none =>
                      rw [h3] at h
                      simp at h
                  | some p3 =>
                      rw [h3] at h
                      rw [ih _ _ _ h3]
                      exact h

/-- Enough fuel for a successful rendering stays enough. -/
theorem renderGo_le_mono (heap : List TableRec) (n m : ℕ) (hnm : n ≤ m)
    (t : RTask) (s : Finset ℕ) (out : String × Finset ℕ)
    (h : renderGo heap n t s = some out) : renderGo heap m t s = some out := by
  induction m with
  | zero =>
      have : n = 0 := Nat.le_zero.mp hnm
      subst this
      exact h
  | succ k ih =>
      rcases Nat.lt_or_ge n (k + 1) with hlt | hge
      · exact renderGo_fuel_mono heap k t s out (ih (Nat.lt_succ_iff.mp hlt))
      · have : n = k + 1 := Nat.le_antisymm hnm hge
        subst this
        exact h

/-- The rendering only ever grows the seen set (the source mutates one
shared Python set in place). -/
theorem renderGo_seen_mono (heap : List TableRec) :
    ∀ (n : ℕ) (t : RTask) (s : Finset ℕ) (out : String × Finset ℕ),
    renderGo heap n t s = some out → s ⊆ out.2 := by
  intro n
  induction n with
  | zero => intro t s out h; simp [renderGo] at h
  | succ m ih =>
      intro t s out h
      match t with
      | .val .nil =>
          obtain ⟨rfl⟩ : (luaScalarStr .nil, s) = out := Option.some_injective _ h
          exact Finset.Subset.refl s
      | .val (.bool b) =>
          obtain ⟨rfl⟩ : (luaScalarStr (.bool b), s) = out := Option.some_injective _ h
          exact Finset.Subset.refl s
      | .val (.num nn) =>
          obtain ⟨rfl⟩ : (luaScalarStr (.num nn), s) = out := Option.some_injective _ h
          exact Finset.Subset.refl s
      | .val (.str c) =>
          obtain ⟨rfl⟩ : (luaScalarStr (.str c), s) = out := Option.some_injective _ h
          exact Finset.Subset.refl s
      | .val (.func f) =>
          obtain ⟨rfl⟩ : (luaScalarStr (.func f), s) = out := Option.some_injective _ h
          exact Finset.Subset.refl s
      | .val (.table tid) =>
          rw [renderGo] at h
          by_cases hseen : tid ∈ s
          · rw [if_pos hseen] at h
            obtain ⟨rfl⟩ : ((("{<...>}" : String)), s) = out := Option.some_injective _ h
            exact Finset.Subset.refl s
          · rw [if_neg hseen] at h
            match hget : heap[tid]? with
            | none =>
                rw [hget] at h
                obtain ⟨rfl⟩ : ((("" : String)), insert tid s) = out :=
                  Option.some_injective _ h
                exact Finset.subset_insert tid s
            | some tr =>
                rw [hget] at h
                dsimp only at h
                match hrec : renderGo heap m (.entries tr.map) (insert tid s) with
                | none =>
                    rw [hrec] at h
                    simp at h
                | some p =>
                    rw [hrec] at h
                    obtain ⟨rfl⟩ : ("\x7b" ++ p.1 ++ "\x7d", p.2) = out :=
                      Option.some_injective _ h
                    exact Finset.Subset.trans (Finset.subset_insert tid s)
                      (ih _ _ p hrec)
      | .entries [] =>
          obtain ⟨rfl⟩ : ((("" : String)), s) = out := Option.some_injective _ h
          exact Finset.Subset.refl s
      | .entries ((k, v) :: rest) =>
          rw [renderGo] at h
          match h1 : renderGo heap m (.val k) s with
          | none =>
              rw [h1] at h
              simp at h
          | some p1 =>
              rw [h1] at h
              simp only [Option.some_bind] at h
              match h2 : renderGo heap m (.val v) p1.2 with
              | none =>
                  rw [h2] at h
                  simp at h
              | some p2 =>
                  rw [h2] at h
                  simp only [Option.some_bind] at h
                  match h3 : renderGo heap m (.entries rest) p2.2 with
                  | none =>
                      rw [h3] at h
                      simp at h
                  | some p3 =>
                      rw [h3] at h
                      have : p3.2 = out.2 := by
                        simp only [Option.map_some'] at h
                        have h4 := Option.some_injective _ h
                        rw [← h4]
                      rw [← this]
                      exact Finset.Subset.trans (ih _ _ _ h1)
                        (Finset.Subset.trans (ih _ _ _ h2) (ih _ _ _ h3))

/-- Rendering always terminates with enough fuel: the recursion only
descends into a table after adding its id to the seen set, so the number of
valid, unseen table ids strictly decreases. -/
theorem renderGo_total (heap : List TableRec) :
    ∀ (c : ℕ) (s : Finset ℕ), (Finset.range heap.length \ s).card ≤ c →
      (∀ v, ∃ n p, renderGo heap n (.val v) s = some p)
      ∧ (∀ l, ∃ n p, renderGo heap n (.entries l) s = some p) := by
  intro c
  induction c using Nat.strong_induction_on with
  | _ c ih =>
    have hval : ∀ s, (Finset.range heap.length \ s).card ≤ c →
        ∀ v, ∃ n p, renderGo heap n (.val v) s = some p := by
      intro s hs v
      match v with
      | .nil => exact ⟨1, _, rfl⟩
      | .bool b => exact ⟨1, _, rfl⟩
      | .num nn => exact ⟨1, _, rfl⟩
      | .str c2 => exact ⟨1, _, rfl⟩
      | .func f => exact ⟨1, _, rfl⟩
      | .table tid =>
          by_cases hseen : tid ∈ s
          · exact ⟨1, _, by rw [renderGo, if_pos hseen]⟩
          · match hget : heap[tid]? with
            | none => exact ⟨1, _, by rw [renderGo, if_neg hseen, hget]⟩
            | some tr =>
                have htid : tid ∈ Finset.range heap.length \ s := by
                  rw [Finset.mem_sdiff, Finset.mem_range]
                  exact ⟨List.getElem?_eq_some_iff.mp hget |>.1, hseen⟩
                have hlt : (Finset.range heap.length \ insert tid s).card <
                    (Finset.range heap.length \ s).card := by
                  rw [Finset.sdiff_insert]
                  exact Finset.card_erase_lt_of_mem htid
                have hmlt : (Finset.range heap.length \ insert tid s).card < c :=
                  Nat.lt_of_lt_of_le hlt hs
                obtain ⟨n, p, hp⟩ :=
                  (ih _ hmlt (insert tid s) (Nat.le_refl _)).2 tr.map
                refine ⟨n + 1, ("\x7b" ++ p.1 ++ "\x7d", p.2), ?_⟩
                rw [renderGo, if_neg hseen, hget]
                dsimp only
                rw [hp]
                rfl
    have hent : ∀ l s, (Finset.range heap.length \ s).card ≤ c →
        ∃ n p, renderGo heap n (.entries l) s = some p := by
      intro l
      induction l with
      | nil => exact fun s hs => ⟨1, _, rfl⟩
      | cons hd tl ihl =>
          intro s hs
          obtain ⟨k, v⟩ := hd
          obtain ⟨n1, p1, h1⟩ := hval s hs k
          have hs1 : (Finset.range heap.length \ p1.2).card ≤ c :=
            Nat.le_trans (Finset.card_le_card (Finset.sdiff_subset_sdiff
              (Finset.Subset.refl _) (renderGo_seen_mono heap n1 _ s p1 h1))) hs
          obtain ⟨n2, p2, h2⟩ := hval p1.2 hs1 v
          have hs2 : (Finset.range heap.length \ p2.2).card ≤ c :=
            Nat.le_trans (Finset.card_le_card (Finset.sdiff_subset_sdiff
              (Finset.Subset.refl _) (renderGo_seen_mono heap n2 _ _ p2 h2))) hs1
          obtain ⟨n3, p3, h3⟩ := ihl p2.2 hs2
          have hn1 : n1 ≤ max n1 (max n2 n3) := Nat.le_max_left _ _
          have hn2 : n2 ≤ max n1 (max n2 n3) :=
            Nat.le_trans (Nat.le_max_left _ _) (Nat.le_max_right _ _)
          have hn3 : n3 ≤ max n1 (max n2 n3) :=
            Nat.le_trans (Nat.le_max_right _ _) (Nat.le_max_right _ _)
          refine ⟨max n1 (max n2 n3) + 1,
            ((if tl.isEmpty
              then "(" ++ p1.1 ++ ")=(" ++ p2.1 ++ ")"
              else "(" ++ p1.1 ++ ")=(" ++ p2.1 ++ ")" ++ ", " ++ p3.1),
             p3.2), ?_⟩
          simp only [renderGo]
          rw [renderGo_le_mono heap n1 _ hn1 _ _ _ h1]
          simp only [Option.some_bind]
          rw [renderGo_le_mono heap n2 _ hn2 _ _ _ h2]
          simp only [Option.some_bind]
          rw [renderGo_le_mono heap n3 _ hn3 _ _ _ h3]
          rfl
    exact fun s hs => ⟨hval s hs, fun l => hent l s hs⟩

/-- Claim C9: table string rendering cycle-detects. A table whose id is
already in the seen set (in particular any table already being rendered on
the current path) renders as the placeholder without recursing; rendering
always terminates with enough fuel, for every heap, including heaps with
self-reachable tables; and a concrete self-referential table renders to a
finite string containing the placeholder. -/
theorem c9_render_cycle_detection :
    (∀ (heap : List TableRec) (n tid : ℕ) (seen : Finset ℕ),
        tid ∈ seen →
        renderGo heap (n + 1) (.val (.table tid)) seen = some ("{<...>}", seen))
    ∧ (∀ (heap : List TableRec) (v : LuaValue),
        ∃ n p, renderGo heap n (.val v) ∅ = some p)
    ∧ renderGo [⟨[(.str ("t"), .table 0)]⟩] 3 (.val (.table 0)) ∅
        = some ("{(t)=({<...>})}", {0}) := by
  refine ⟨?_, ?_, ?_⟩
  · intro heap n tid seen hseen
    rw [renderGo, if_pos hseen]
  · intro heap v
    exact (renderGo_total heap ((Finset.range heap.length \ ∅).card) ∅
      (Nat.le_refl _)).1 v
  · rfl

/-- Witness for C9: the placeholder branch applied at a concrete cyclic
heap (one table whose sole entry points back to itself). -/
theorem c9_render_cycle_detection_witness :
    (0 ∈ ({0} : Finset ℕ))
    ∧ renderGo [⟨[(.str ("t"), .table 0)]⟩] 1 (.val (.table 0)) {0}
        = some ("{<...>}", {0}) :=
  ⟨by decide, c9_render_cycle_detection.1 _ 0 0 {0} (by decide)⟩

/-- Successful dict lookup exhibits a stored key equal to the query. -/
theorem mapFind_some_eqkey (m : List (LuaValue × LuaValue)) (k v : LuaValue)
    (hv : mapFind m k = some v) : ∃ s, luaEq s k = true := by
  induction m with
  | nil => simp [mapFind] at hv
  | cons hd tl ih =>
      obtain ⟨s0, v0⟩ := hd
      by_cases h : luaEq s0 k = true
      · exact ⟨s0, h⟩
      · rw [mapFind, if_neg h] at hv
        exact ih hv

/-- Keys present in a table are never nil, NaN or function values, and the
normalised key `put` stores under keeps their equality behaviour. -/
theorem present_key_normalises (t : TableRec) (k : LuaValue)
    (h0 : k ≠ .nil) (h1 : tableHas t k = true) :
    ∃ k2, tablePut t k .nil = .ok ⟨mapSet t.map k2 .nil⟩
      ∧ luaEq k2 k = true ∧ (∀ s, luaEq s k2 = luaEq s k) := by
  have hk : ∃ s, luaEq s k = true := by
    unfold tableHas at h1
    obtain ⟨v, hv⟩ := Option.isSome_iff_exists.mp h1
    exact mapFind_some_eqkey t.map k v hv
  obtain ⟨s, hsk⟩ := hk
  cases k with
  | nil => exact absurd rfl h0
  | func f =>
      exfalso
      cases s <;> simp [luaEq] at hsk
  | bool b => exact ⟨.bool b, rfl, by simp [luaEq], fun s => rfl⟩
  | str c => exact ⟨.str c, rfl, by simp [luaEq], fun s => rfl⟩
  | table i => exact ⟨.table i, rfl, by simp [luaEq], fun s => rfl⟩
  | num n =>
      cases n with
      | int i => exact ⟨.num (.int i), rfl, by simp [luaEq, LuaNum.toQ], fun s => rfl⟩
      | float f =>
          cases f with
          | nan => exact absurd hsk (by simp [luaEq_nan_right])
          | fin q =>
              by_cases hden : q.den = 1
              · refine ⟨.num (.int q.num), ?_, ?_, ?_⟩
                · simp [tablePut, LFloat.ieeeEq, LFloat.isInteger, hden, LFloat.toInt]
                · exact luaEq_num_of_toQ _ _ q
                    (by simp [LuaNum.toQ, Rat.coe_int_num_of_den_eq_one hden]) rfl
                · exact luaEq_num_congr _ _
                    (by simp [LuaNum.toQ, Rat.coe_int_num_of_den_eq_one hden])
              · refine ⟨.num (.float (.fin q)), ?_, ?_, fun s => rfl⟩
                · simp [tablePut, LFloat.ieeeEq, LFloat.isInteger, hden]
                · simp [luaEq, LuaNum.toQ]

/-- Claim C10: assigning nil to a present key keeps the slot (the source
explicitly refrains from deleting, to stay safe under `next()` traversal):
`get` then reports nil, exactly as for an absent key, while `has` still
reports `true`. -/
theorem c10_nil_assignment_retains_slot (t : TableRec) (k : LuaValue)
    (h0 : k ≠ .nil) (h1 : tableHas t k = true) :
    ∃ u, tablePut t k .nil = .ok u
      ∧ tableGet u k = .nil ∧ tableHas u k = true := by
  obtain ⟨k2, hput, hk2k, hcong⟩ := present_key_normalises t k h0 h1
  refine ⟨⟨mapSet t.map k2 .nil⟩, hput, ?_, ?_⟩
  · simp [tableGet, mapFind_mapSet t.map k2 k .nil hk2k hcong]
  · simp [tableHas, mapFind_mapSet t.map k2 k .nil hk2k hcong]

/-- Witness for C7 at the concrete instance `t = {}`, float key `1.0`,
integer key `1`, value `"x"`. -/
theorem c7_float_key_normalisation_witness :
    (1 : ℚ).den = 1
    ∧ ((tablePut ⟨[]⟩ (.num (.float (.fin 1))) (.str ("x"))).map
          (fun u => tableGet u (.num (.int (1 : ℚ).num))) = .ok (.str ("x"))
       ∧ (tablePut ⟨[]⟩ (.num (.int (1 : ℚ).num)) (.str ("x"))).map
          (fun u => tableGet u (.num (.float (.fin 1)))) = .ok (.str ("x"))) :=
  ⟨rfl, c7_float_key_normalisation ⟨[]⟩ 1 (.str ("x")) rfl⟩

/-- Witness for C10 at the concrete instance `t = {[1] = "a"}`, key `1`. -/
theorem c10_nil_assignment_retains_slot_witness :
    ((LuaValue.num (.int 1)) ≠ .nil)
    ∧ tableHas ⟨[(.num (.int 1), .str ("a"))]⟩ (.num (.int 1)) = true
    ∧ ∃ u, tablePut ⟨[(.num (.int 1), .str ("a"))]⟩ (.num (.int 1)) .nil = .ok u
        ∧ tableGet u (.num (.int 1)) = .nil
        ∧ tableHas u (.num (.int 1)) = true :=
  ⟨fun h => LuaValue.noConfusion h, rfl,
   c10_nil_assignment_retains_slot ⟨[(.num (.int 1), .str ("a"))]⟩
     (.num (.int 1)) (fun h => LuaValue.noConfusion h) rfl⟩

/-- Modelled from the spec: `int_wrap_overflow` two's-complement 64-bit
wrap-around (spec 4.2; `ay/operations.py` is absent from `src/`). -/
def wrap64 (i : ℤ) : ℤ := (i + 2 ^ 63) % 2 ^ 64 - 2 ^ 63

/-- Modelled from the spec: `overflow_arith_add` (used by `For._execute`):
integer addition wraps around 64 bits and reports whether the exact sum left
the 64-bit range; additions involving a float never report overflow (float
rounding is not modelled; no claim exercises float loop arithmetic). -/
def overflowArithAdd : LuaNum → LuaNum → Bool × LuaNum
| .int a, .int b =>
    let s := a + b
    (decide (s > MAX_INT64 ∨ s < MIN_INT64), .int (wrap64 s))
| .int _, .float .nan => (false, .float .nan)
| .int a, .float (.fin q) => (false, .float (.fin ((a : ℚ) + q)))
| .float .nan, _ => (false, .float .nan)
| .float (.fin q), .int b => (false, .float (.fin (q + b)))
| .float (.fin _), .float .nan => (false, .float .nan)
| .float (.fin q), .float (.fin r) => (false, .float (.fin (q + r)))

/-- Modelled from the spec: numeric `rel_le` on numbers (the only operand
kind reaching it in `For._execute` after the asserts): mathematical
comparison across the Integer/Float tower; comparisons with nan are false. -/
def relLeNum (a b : LuaNum) : Bool :=
  match a.toQ, b.toQ with
  | some x, some y => decide (x ≤ y)
  | _, _ => false

/-- Modelled from the spec: numeric `rel_ge`, as `relLeNum`. -/
def relGeNum (a b : LuaNum) : Bool :=
  match a.toQ, b.toQ with
  | some x, some y => decide (y ≤ x)
  | _, _ => false

/-- Python comparison `value == 0` on a number (`For._execute` zero-step
check): true exactly for mathematical zero, false for nan. -/
def numIsZero (a : LuaNum) : Bool :=
  match a.toQ with
  | some x => x == 0
  | none => false

/-- Python comparison `value < 0` on a number (`For._execute` step sign):
false for nan. -/
def numIsNeg (a : LuaNum) : Bool :=
  match a.toQ with
  | some x => decide (x < 0)
  | none => false

/-- Modelled from the spec: `coerce_int_to_float` (integers convert to
float; the claims never exercise values where double rounding matters). -/
def coerceIntToFloat : LuaNum → LuaNum
| .int i => .float (.fin (i : ℚ))
| .float f => .float f

/-- Modelled from the spec: `arith_unary_minus` on numbers: integer
negation wraps around 64 bits, float negation is exact, nan stays nan. -/
def arithUnaryMinus : LuaNum → LuaNum
| .int i => .int (wrap64 (-i))
| .float .nan => .float .nan
| .float (.fin q) => .float (.fin (-q))

/-- Result of `Expression.evaluate` in the source: a single value, or the
list a multires expression (call, vararg) produces. -/
inductive EvalR where
| one (v : LuaValue)
| many (vs : List LuaValue)

/-- Function `flatten` (`ast_nodes.py` lines 37-44) applied to evaluation
results (the source recursion only ever sees one level of lists). -/
def flattenE : List EvalR → List LuaValue
| [] => []
| .one v :: rest => v :: flattenE rest
| .many vs :: rest => vs ++ flattenE rest

/-- Modelled from the spec: `adjust_to_one` (spec 4.4): a plain value is
kept; a multires list contributes its first value, or nil when empty. -/
def adjustToOne : EvalR → LuaValue
| .one v => v
| .many [] => .nil
| .many (v :: _) => v

/-- Flattening step of the value-list adjustment: every expression but the
last contributes exactly one value, the last contributes all of its
values. -/
def adjustFlat : List EvalR → List LuaValue
| [] => []
| [.one v] => [v]
| [.many vs] => vs
| r :: rest => adjustToOne r :: adjustFlat rest

/-- Modelled from the spec: `adjust` (spec 4.4): the flat list truncated or
nil-padded to exactly `n` values. -/
def adjustVals (rs : List EvalR) (n : ℕ) : List LuaValue :=
  let flat := adjustFlat rs
  flat.take n ++ List.replicate (n - flat.length) .nil

/-- Record `Variable` (`values.py`): a value with the `constant` and
`to_be_closed` attributes. -/
structure VarRec where
  value : LuaValue
  constant : Bool
  toBeClosed : Bool

/-- Plain variable, no attributes. -/
def VarRec.plain (v : LuaValue) : VarRec := ⟨v, false, false⟩

/-- Modelled from the spec: one `Scope` (spec 4.3; `ay/scope.py` is absent
from `src/`): a parent link and the name-to-Variable bindings. Scopes are
shared mutable objects; they live in a heap indexed by scope ids, a parent
always having a smaller id than its children. The captured vararg list is
not modelled (no embedded program uses varargs). -/
structure ScopeRec where
  parent : Option ℕ
  bindings : List (String × VarRec)

/-- Interpreter state: the scope heap, the table heap and the id of the
global table (`VirtualMachine` owns one root scope and one global table;
`create_global_table` is modelled as producing an empty table). -/
structure State where
  scopes : List ScopeRec
  tables : List TableRec
  globals : ℕ

/-- Fresh state of a `VirtualMachine`: one root scope, one empty global
table. -/
def initState : State := ⟨[⟨none, []⟩], [⟨[]⟩], 0⟩

/-- Binding lookup in one scope (Python dict keyed by interned name). -/
def bindingsFind : List (String × VarRec) → String → Option VarRec
| [], _ => none
| (n, v) :: rest, q => if n == q then some v else bindingsFind rest q

/-- Binding update in one scope: replace or append. -/
def bindingsSet : List (String × VarRec) → String → VarRec → List (String × VarRec)
| [], n, v => [(n, v)]
| (n0, v0) :: rest, n, v =>
    if n0 == n then (n0, v) :: rest else (n0, v0) :: bindingsSet rest n v

/-- Modelled from the spec: `Scope.push` creates a child scope (spec 4.3);
returns the updated state and the new scope id. -/
def scopePush (st : State) (sid : ℕ) : State × ℕ :=
  (⟨st.scopes ++ [⟨some sid, []⟩], st.tables, st.globals⟩, st.scopes.length)

/-- Table of the heap at an id (ids produced by execution are always
valid; the default is never reached there). -/
def stateTable (st : State) (tid : ℕ) : TableRec := (st.tables[tid]?).getD ⟨[]⟩

/-- Read through `LuaTable.get` on a heap table. -/
def stateTableGet (st : State) (tid : ℕ) (k : LuaValue) : LuaValue :=
  tableGet (stateTable st tid) k

/-- Write through `LuaTable.put` on a heap table. -/
def stateTablePut (st : State) (tid : ℕ) (k v : LuaValue) : Except Err State :=
  match tablePut (stateTable st tid) k v with
  | .error e => .error e
  | .ok t2 => .ok ⟨st.scopes, st.tables.set tid t2, st.globals⟩

/-- Write a value into the global table under a string key (the root
fallback of nonlocal assignment, spec 4.3 / `vm.py`). -/
def globalsPut (st : State) (name : String) (v : LuaValue) : Except Err State :=
  stateTablePut st st.globals (.str name) v

/-- Modelled from the spec: the chain walk of `Scope.get` (spec 4.3): the
nearest binding wins; at the root, unresolved names fall back to the global
table. The bound argument only realises that parents have smaller ids. -/
def scopeGetAux (st : State) : ℕ → ℕ → String → LuaValue
| 0, _, name => stateTableGet st st.globals (.str name)
| bound + 1, sid, name =>
    match st.scopes[sid]? with
    | none => stateTableGet st st.globals (.str name)
    | some sc =>
        match bindingsFind sc.bindings name with
        | some var => var.value
        | none =>
            match sc.parent with
            | none => stateTableGet st st.globals (.str name)
            | some p => scopeGetAux st bound p name

/-- Modelled from the spec: `Scope.get` / `get_ls`. -/
def scopeGet (st : State) (sid : ℕ) (name : String) : LuaValue :=
  scopeGetAux st (sid + 1) sid name

/-- Modelled from the spec: `Scope.put_local` / `put_local_ls` introduces
or shadows a binding in the current scope only (spec 4.3). -/
def scopePutLocal (st : State) (sid : ℕ) (name : String) (v : VarRec) : State :=
  match st.scopes[sid]? with
  | none => st
  | some sc =>
      ⟨st.scopes.set sid ⟨sc.parent, bindingsSet sc.bindings name v⟩,
       st.tables, st.globals⟩

/-- Modelled from the spec: the chain walk of `Scope.put_nonlocal` (spec
4.3): mutate the nearest existing binding in place, else write the global
table. The `ConstError` path is not modelled (no embedded program writes a
constant binding). -/
def scopePutNonlocalAux (st : State) : ℕ → ℕ → String → LuaValue → Except Err State
| 0, _, name, v => globalsPut st name v
| bound + 1, sid, name, v =>
    match st.scopes[sid]? with
    | none => globalsPut st name v
    | some sc =>
        match bindingsFind sc.bindings name with
        | some var =>
            .ok ⟨st.scopes.set sid
                  ⟨sc.parent, bindingsSet sc.bindings name ⟨v, var.constant, var.toBeClosed⟩⟩,
                 st.tables, st.globals⟩
        | none =>
            match sc.parent with
            | none => globalsPut st name v
            | some p => scopePutNonlocalAux st bound p name v

/-- Modelled from the spec: `Scope.put_nonlocal` / `put_nonlocal_ls`. -/
def scopePutNonlocal (st : State) (sid : ℕ) (name : String) (v : LuaValue) :
    Except Err State :=
  scopePutNonlocalAux st (sid + 1) sid name v

/-- Execution result carrying the state: Python exceptions do not roll back
heap mutations, so the error constructor carries the state at the raise
point. -/
inductive EResult (α : Type) where
| ok (a : α) (st : State)
| err (e : Err) (st : State)

/-- Sequencing of execution results. -/
def EResult.bind {α β : Type} : EResult α → (α → State → EResult β) → EResult β
| .ok a st, k => k a st
| .err e st, _ => .err e st

/-- Bundle of the mutually recursive entry points of the evaluator. The
recursion is tied by `mkRec` below through a fuel argument; every other
evaluator function takes the bundle as a parameter. -/
structure Rec where
  evalExpr : Expression → ℕ → State → EResult EvalR
  execStmt : Statement → ℕ → State → EResult (Option (List LuaValue))
  execForLoop : Bool → (LuaNum → LuaNum → Bool) → LuaNum → LuaNum → String →
    Block → ℕ → LuaNum → State → EResult Unit

/-- Method `Expression.evaluate_single`: `adjust_to_one(self.evaluate(s))`. -/
def evalSingleF (rec : Rec) (e : Expression) (sid : ℕ) (st : State) :
    EResult LuaValue :=
  (rec.evalExpr e sid st).bind (fun r st2 => .ok (adjustToOne r) st2)

/-- Left-to-right evaluation of an expression list (the comprehensions
`[expr.evaluate(scope) for expr in ...]` in the source). -/
def evalListF (rec : Rec) : List Expression → ℕ → State → EResult (List EvalR)
| [], _, st => .ok [] st
| e :: rest, sid, st =>
    (rec.evalExpr e sid st).bind (fun r st2 =>
      (evalListF rec rest sid st2).bind (fun rs st3 => .ok (r :: rs) st3))

/-- The statement fold shared by `Block.evaluate_without_inner_scope` and
`Block.execute_without_inner_scope` (`ast_nodes.py` lines 105-122): run the
statements in order, keeping only the result of the last one. -/
def execStmtsF (rec : Rec) : List Statement → ℕ → State → EResult (Option (List LuaValue))
| [], _, st => .ok none st
| [s], sid, st => rec.execStmt s sid st
| s :: rest, sid, st =>
    (rec.execStmt s sid st).bind (fun _ st2 => execStmtsF rec rest sid st2)

/-- Method `Block.evaluate_without_inner_scope` (`ast_nodes.py` lines
105-115): run the statements, then either flatten the evaluated return
statement expressions, or produce `r if r else []` — the last statement's
result when it is a non-empty list, the empty list otherwise. -/
def evalBlockNoScopeF (rec : Rec) (b : Block) (sid : ℕ) (st : State) :
    EResult (List LuaValue) :=
  (execStmtsF rec b.stmts sid st).bind (fun r st2 =>
    match b.ret with
    | some vexprs =>
        (evalListF rec vexprs sid st2).bind (fun rs st3 => .ok (flattenE rs) st3)
    | none =>
        match r with
        | some (v :: vs) => .ok (v :: vs) st2
        | _ => .ok [] st2)

/-- Parameter binding of a call: `put_local` each parameter name to the
corresponding adjusted argument. -/
def bindParams : State → ℕ → List String → List LuaValue → State
| st, _, [], _ => st
| st, sid, n :: ns, [] =>
    bindParams (scopePutLocal st sid n (VarRec.plain .nil)) sid ns []
| st, sid, n :: ns, v :: vs =>
    bindParams (scopePutLocal st sid n (VarRec.plain v)) sid ns vs

/-- Modelled from the spec: `LuaFunction.call` on a closure (spec 4.4; the
method is not under `src/`): push a fresh scope whose parent is the
closure's captured defining scope (not the caller's), bind the parameters
there from the argument list adjusted to the declared arity, then run the
body block in that scope without pushing another one — the body's return
statement or fall-through result is produced by
`Block.evaluate_without_inner_scope`. Variadic extras and native callables
are not modelled (no embedded program needs them). -/
def callFunctionF (rec : Rec) (f : FuncV) (args : List EvalR) (st : State) :
    EResult (List LuaValue) :=
  let p := scopePush st f.parentScope
  let vals := adjustVals args f.params.length
  let st2 := bindParams p.1 p.2 f.params vals
  evalBlockNoScopeF rec f.block p.2 st2

/-- Split of `TableConstructor.evaluate`: when the last field is positional
(`FieldCounterKey`), it is treated separately (multires expansion). -/
def splitLastCounter (fields : List Field) : List Field × Option Expression :=
  match fields.getLast? with
  | some (.counterKey v) => (fields.dropLast, some v)
  | _ => (fields, none)

/-- Consecutive-counter puts of the expanded last field
(`enumerate(last_field_value, start=counter)` in the source). -/
def putConsecF (tid : ℕ) : ℤ → List LuaValue → State → EResult Unit
| _, [], st => .ok () st
| counter, v :: vs, st =>
    match stateTablePut st tid (.num (.int counter)) v with
    | .error e => .err e st
    | .ok st2 => putConsecF tid (counter + 1) vs st2

/-- Field loop of `TableConstructor.evaluate` (`ast_nodes.py` lines
398-412): keyed fields do not advance the counter, positional fields
consume it; returns the counter after the loop. -/
def evalFieldsF (rec : Rec) (tid : ℕ) : List Field → ℤ → ℕ → State → EResult ℤ
| [], counter, _, st => .ok counter st
| .withKeyName kname val :: rest, counter, sid, st =>
    (evalSingleF rec val sid st).bind (fun v st2 =>
      match stateTablePut st2 tid (.str kname) v with
      | .error e => .err e st2
      | .ok st3 => evalFieldsF rec tid rest counter sid st3)
| .withKeyExpr ke val :: rest, counter, sid, st =>
    (evalSingleF rec ke sid st).bind (fun k st2 =>
      (evalSingleF rec val sid st2).bind (fun v st3 =>
        match stateTablePut st3 tid k v with
        | .error e => .err e st3
        | .ok st4 => evalFieldsF rec tid rest counter sid st4))
| .counterKey val :: rest, counter, sid, st =>
    (evalSingleF rec val sid st).bind (fun v st2 =>
      match stateTablePut st2 tid (.num (.int counter)) v with
      | .error e => .err e st2
      | .ok st3 => evalFieldsF rec tid rest (counter + 1) sid st3)

/-- Method `TableConstructor.evaluate` (`ast_nodes.py` lines 384-426):
allocate a fresh table; run the field loop over all fields except a
trailing positional one; a trailing positional field expands a multires
result into consecutive counter slots. -/
def evalTableConsF (rec : Rec) (fields : List Field) (sid : ℕ) (st : State) :
    EResult EvalR :=
  let tid := st.tables.length
  let st1 : State := ⟨st.scopes, st.tables ++ [⟨[]⟩], st.globals⟩
  if fields.isEmpty then .ok (.one (.table tid)) st1
  else
    match splitLastCounter fields with
    | (initFields, some lastVal) =>
        (evalFieldsF rec tid initFields 1 sid st1).bind (fun counter st2 =>
          (rec.evalExpr lastVal sid st2).bind (fun lastR st3 =>
            match lastR with
            | .many vs =>
                (putConsecF tid counter vs st3).bind (fun _ st4 =>
                  .ok (.one (.table tid)) st4)
            | .one v =>
                match stateTablePut st3 tid (.num (.int counter)) v with
                | .error e => .err e st3
                | .ok st4 => .ok (.one (.table tid)) st4))
    | (allFields, none) =>
        (evalFieldsF rec tid allFields 1 sid st1).bind (fun _ st2 =>
          .ok (.one (.table tid)) st2)

/-- Expression evaluation: the `evaluate` methods of `ast_nodes.py`, one
arm per node kind (see each arm's comment for the source lines). -/
def evalExprF (rec : Rec) : Expression → ℕ → State → EResult EvalR
| .numeralDec d, _, st =>
    -- NumeralDec.evaluate (lines 182-185), integer-only form: a literal
    -- above MAX_INT64 becomes a float (host rounding is not modelled; no
    -- embedded program uses such a literal)
    if (d : ℤ) > MAX_INT64 then .ok (.one (.num (.float (.fin (d : ℚ))))) st
    else .ok (.one (.num (.int (d : ℤ)))) st
| .litNil, _, st => .ok (.one .nil) st
| .litTrue, _, st => .ok (.one (.bool true)) st
| .litFalse, _, st => .ok (.one (.bool false)) st
| .litStr s, _, st => .ok (.one (.str s)) st
| .varName n, sid, st =>
    -- VarName.evaluate (lines 362-364)
    .ok (.one (scopeGet st sid n)) st
| .varIndex base index, sid, st =>
    -- VarIndex.evaluate (lines 371-374): full evaluation of the base, an
    -- assert that it is a table, then `get` at the single-adjusted index
    (rec.evalExpr base sid st).bind (fun b st2 =>
      match b with
      | .one (.table tid) =>
          (evalSingleF rec index sid st2).bind (fun k st3 =>
            .ok (.one (stateTableGet st3 tid k)) st3)
      | _ => .err .assertFail st2)
| .tableCons fields, sid, st => evalTableConsF rec fields sid st
| .funcBody params variadic body, sid, st =>
    -- FuncBody.evaluate (lines 456-464): build a closure capturing the
    -- current scope
    .ok (.one (.func ⟨params, variadic, sid, body⟩)) st
| .callRegular nameE argEs, sid, st =>
    -- FuncCallRegular.evaluate (lines 477-481)
    (rec.evalExpr nameE sid st).bind (fun fv st2 =>
      match fv with
      | .one (.func f) =>
          (evalListF rec argEs sid st2).bind (fun args st3 =>
            (callFunctionF rec f args st3).bind (fun vs st4 => .ok (.many vs) st4))
      | _ => .err .assertFail st2)
| .callMethod objE mname argEs, sid, st =>
    -- FuncCallMethod.evaluate (lines 495-503): the receiver is evaluated
    -- once, the method name looked up on it; the argument list is the
    -- evaluated args only — the receiver is NOT prepended in this snapshot
    (rec.evalExpr objE sid st).bind (fun ov st2 =>
      match ov with
      | .one (.table tid) =>
          match stateTableGet st2 tid (.str mname) with
          | .func f =>
              (evalListF rec argEs sid st2).bind (fun args st3 =>
                (callFunctionF rec f args st3).bind (fun vs st4 =>
                  .ok (.many vs) st4))
          | _ => .err .assertFail st2
      | _ => .err .assertFail st2)
| .unaryNeg e, sid, st =>
    -- UnaryOperation.evaluate (lines 539-541) with the NEG operator;
    -- `arith_unary_minus` of a non-number is the TypeError-kind failure
    (rec.evalExpr e sid st).bind (fun v st2 =>
      match v with
      | .one (.num n) => .ok (.one (.num (arithUnaryMinus n))) st2
      | _ => .err .typeE st2)
| .paren e, sid, st =>
    -- ParenExpression.evaluate (lines 90-94)
    (rec.evalExpr e sid st).bind (fun v st2 => .ok (.one (adjustToOne v)) st2)

/-- Binding loop of `LocalAssignment.execute` (`ast_nodes.py` lines
964-985): plain names bind a fresh Variable; the `close` attribute may be
used once (a second use raises), `const` marks the Variable constant, any
other attribute raises. -/
def localBindF : List ((String × Option String) × LuaValue) → Bool → ℕ → State → EResult Unit
| [], _, _, st => .ok () st
| ((n, none), v) :: rest, usedClosed, sid, st =>
    localBindF rest usedClosed sid (scopePutLocal st sid n (VarRec.plain v))
| ((n, some attr), v) :: rest, usedClosed, sid, st =>
    if attr == ("close") then
      if usedClosed then .err .notImpl st
      else localBindF rest true sid (scopePutLocal st sid n ⟨v, false, true⟩)
    else if attr == ("const") then
      localBindF rest usedClosed sid (scopePutLocal st sid n ⟨v, true, false⟩)
    else .err .notImpl st

/-- Target loop of `Assignment.execute` (`ast_nodes.py` lines 647-657): a
name target writes through `put_nonlocal`; an index target re-evaluates its
base (assert: a table) and puts at the fully evaluated index (a multires
index would crash the host dict — `hostCrash`); any other target shape
raises `NotImplementedError`. -/
def assignTargetsF (rec : Rec) : List (Expression × LuaValue) → ℕ → State → EResult Unit
| [], _, st => .ok () st
| (.varName n, v) :: rest, sid, st =>
    match scopePutNonlocal st sid n v with
    | .error e => .err e st
    | .ok st2 => assignTargetsF rec rest sid st2
| (.varIndex base index, v) :: rest, sid, st =>
    (rec.evalExpr base sid st).bind (fun b st2 =>
      match b with
      | .one (.table tid) =>
          (rec.evalExpr index sid st2).bind (fun kr st3 =>
            match kr with
            | .one k =>
                match stateTablePut st3 tid k v with
                | .error e => .err e st3
                | .ok st4 => assignTargetsF rec rest sid st4
            | .many _ => .err .hostCrash st3)
      | _ => .err .assertFail st2)
| (_, _) :: _, _, st => .err .notImpl st

/-- Method `For._execute` (`ast_nodes.py` lines 751-818): evaluate start,
limit and step once (each single-adjusted and asserted to be a number; a
missing step defaults to integer 1); the loop is an integer loop when both
start and step are integers, otherwise all three are coerced to float; a
zero step raises; the continuation test is chosen once from the step's
sign; one inner scope is pushed and the while loop started at the initial
value. -/
def forExecuteF (rec : Rec) (nameS : String) (startE stopE : Expression)
    (stepE : Option Expression) (body : Block) (sid : ℕ) (st : State) :
    EResult Unit :=
  (evalSingleF rec startE sid st).bind (fun iv st1 =>
    match iv with
    | .num initial =>
        (evalSingleF rec stopE sid st1).bind (fun lv st2 =>
          match lv with
          | .num limit =>
              (match stepE with
               | some e =>
                   (evalSingleF rec e sid st2).bind (fun sv st3 =>
                     match sv with
                     | .num stepN => .ok stepN st3
                     | _ => .err .assertFail st3)
               | none => .ok (LuaNum.int 1) st2).bind (fun stepN st4 =>
                let isInt :=
                  (match initial with | .int _ => true | .float _ => false)
                  && (match stepN with | .int _ => true | .float _ => false)
                let initial2 := if isInt then initial else coerceIntToFloat initial
                let limit2 := if isInt then limit else coerceIntToFloat limit
                let step2 := if isInt then stepN else coerceIntToFloat stepN
                if numIsZero step2 then .err .notImpl st4
                else
                  let condF := if numIsNeg step2 then relGeNum else relLeNum
                  let p := scopePush st4 sid
                  rec.execForLoop isInt condF step2 limit2 nameS body p.2 initial2 p.1)
          | _ => .err .assertFail st2)
    | _ => .err .assertFail st1)

/-- The while loop of `For._execute` (`ast_nodes.py` lines 808-818): while
the continuation test holds, bind the control variable as a fresh Variable
in the (single) inner scope, run the body without pushing a scope, add the
step with `overflow_arith_add`, and stop — before any further iteration —
when that addition overflowed in an integer loop. -/
def execForLoopF (rec : Rec) (isInt : Bool) (condF : LuaNum → LuaNum → Bool)
    (stepN limit : LuaNum) (nameS : String) (body : Block) (innerSid : ℕ)
    (control : LuaNum) (st : State) : EResult Unit :=
  if condF control limit then
    let st1 := scopePutLocal st innerSid nameS (VarRec.plain (.num control))
    (execStmtsF rec body.stmts innerSid st1).bind (fun _ st2 =>
      let oc := overflowArithAdd control stepN
      if oc.1 && isInt then .ok () st2
      else rec.execForLoop isInt condF stepN limit nameS body innerSid oc.2 st2)
  else .ok () st

/-- Statement execution: the `execute` methods of `ast_nodes.py`, one arm
per statement kind (see each arm's comment for the source lines). -/
def execStmtF (rec : Rec) : Statement → ℕ → State → EResult (Option (List LuaValue))
| .emptyStmt, _, st => .ok none st
| .breakStmt, _, st =>
    -- Break.execute (lines 672-674)
    .err .brk st
| .assignment targets exprs, sid, st =>
    -- Assignment.execute (lines 643-657): evaluate all expressions left to
    -- right, adjust to the target count, write each target, and return the
    -- adjusted values
    (evalListF rec exprs sid st).bind (fun rs st2 =>
      let values := adjustVals rs targets.length
      (assignTargetsF rec (targets.zip values) sid st2).bind (fun _ st3 =>
        .ok (some values) st3))
| .localAssignment names exprs, sid, st =>
    -- LocalAssignment.execute (lines 958-985)
    if exprs.isEmpty then
      (localBindF (names.zip (List.replicate names.length (.nil : LuaValue)))
          false sid st).bind (fun _ st2 =>
        .ok (some (List.replicate names.length .nil)) st2)
    else
      (evalListF rec exprs sid st).bind (fun rs st2 =>
        let vals := adjustVals rs names.length
        (localBindF (names.zip vals) false sid st2).bind (fun _ st3 =>
          .ok (some vals) st3))
| .callRegularStmt nameE argEs, sid, st =>
    -- FuncCallRegular.execute (lines 483-487): `return r if r else None`
    (rec.evalExpr (.callRegular nameE argEs) sid st).bind (fun r st2 =>
      match r with
      | .many (v :: vs) => .ok (some (v :: vs)) st2
      | .many [] => .ok none st2
      | .one v => .ok (some [v]) st2)
| .callMethodStmt objE m argEs, sid, st =>
    -- FuncCallMethod.execute (lines 505-509): evaluate and discard the
    -- result; only a propagating ReturnException (native functions, a dead
    -- path for the embedded programs) would produce values
    match rec.evalExpr (.callMethod objE m argEs) sid st with
    | .ok _ st2 => .ok none st2
    | .err (.ret vs) st2 => .ok (some vs) st2
    | .err e st2 => .err e st2
| .forNum nameS startE stopE stepE body, sid, st =>
    -- For.execute (lines 745-749): run `_execute`, swallowing
    -- BreakException
    match forExecuteF rec nameS startE stopE stepE body sid st with
    | .ok _ st2 => .ok none st2
    | .err .brk st2 => .ok none st2
    | .err e st2 => .err e st2

/-- Fuel-exhausted bundle. -/
def failRec : Rec :=
  ⟨fun _ _ st => .err .fuel st,
   fun _ _ st => .err .fuel st,
   fun _ _ _ _ _ _ _ _ st => .err .fuel st⟩

/-- Tie of the evaluator's recursion: `mkRec fuel` runs every entry point
with recursion depth at most `fuel`. -/
def mkRec : ℕ → Rec
| 0 => failRec
| fuel + 1 => ⟨evalExprF (mkRec fuel), execStmtF (mkRec fuel), execForLoopF (mkRec fuel)⟩

/-- Value part of a program run, discarding the final state. -/
def resOf (r : EResult (List LuaValue)) : Option (List LuaValue) :=
  match r with
  | .ok vs _ => some vs
  | .err _ _ => none

/-- Chunk execution at the root scope of a fresh virtual machine. -/
def runChunk (fuel : ℕ) (b : Block) : Option (List LuaValue) :=
  resOf (evalBlockNoScopeF (mkRec fuel) b 0 initState)

/-- Program of claim C1: `local t = {}; local m = function(x) return x end;
t.m = m; return t:m(99)`. Under the claimed semantics the receiver `t` is
prepended, so `x` is bound to `t` and the call returns the table; the
snapshot instead binds `x` to `99`. -/
def c1prog : Block :=
  .mk [ .localAssignment [("t", none)] [.tableCons []],
        .localAssignment [("m", none)]
          [.funcBody ["x"] false (.mk [] (some [.varName ("x")]))],
        .assignment [.varIndex (.varName ("t")) (.litStr ("m"))] [.varName ("m")] ]
      (some [.callMethod (.varName ("t")) ("m") [.numeralDec 99]])

/-- Claim C1. `FuncCallMethod.evaluate` evaluates the receiver once and
looks the method up on it, but then calls the function with the evaluated
argument list only — the receiver is not prepended, contradicting the
comment right above it in the source ("syntactic sugar for v.name(v,args)").
Evaluating the code at the failing input `t:m(99)`, where `m` returns its
first parameter: the call returns `99`, not the receiver table (the table
allocated for `t` has heap id 1). -/
theorem c1_method_call_drops_receiver :
    runChunk 20 c1prog = some [.num (.int 99)]
    ∧ some [LuaValue.num (.int 99)] ≠ some [LuaValue.table 1] := by
  constructor
  · rfl
  · intro h
    have h2 := (Option.some_injective _ h)
    have h3 := List.head_eq_of_cons_eq h2
    exact LuaValue.noConfusion h3

/-- Program of claim C2: `local fs = {}; for i = 1, 3 do fs[i] = function()
return i end end; return fs[1](), fs[2](), fs[3]()`. -/
def c2prog : Block :=
  .mk [ .localAssignment [("fs", none)] [.tableCons []],
        .forNum ("i") (.numeralDec 1) (.numeralDec 3) none
          (.mk [ .assignment [.varIndex (.varName ("fs")) (.varName ("i"))]
                   [.funcBody [] false (.mk [] (some [.varName ("i")]))] ] none) ]
      (some [ .callRegular (.varIndex (.varName ("fs")) (.numeralDec 1)) [],
              .callRegular (.varIndex (.varName ("fs")) (.numeralDec 2)) [],
              .callRegular (.varIndex (.varName ("fs")) (.numeralDec 3)) [] ])

/-- Claim C2. `For._execute` pushes ONE inner scope before the while loop
(line 807) and rebinds the control variable in that same scope on every
iteration, so every closure created in the body captures the same scope and
reads the binding left by the final iteration: the three closures all
return `3`, not `1, 2, 3` as the claim (and the Lua semantics the source's
own comments quote) requires. -/
theorem c2_loop_closures_capture_final_value :
    runChunk 30 c2prog
      = some [.num (.int 3), .num (.int 3), .num (.int 3)] := rfl

/-- Program of claim C4: a closure whose body is `local x = 10` and no
return statement, then a call of it. -/
def c4prog : Block :=
  .mk [ .localAssignment [("f", none)]
          [.funcBody [] false
            (.mk [.localAssignment [("x", none)] [.numeralDec 10]] none)] ]
      (some [.callRegular (.varName ("f")) []])

/-- Counterexample to claim C4. `Block.evaluate_without_inner_scope`
returns `r if r else []` when there is no return statement, where `r` is
the last statement's result; `LocalAssignment.execute` returns its adjusted
value list, so calling `function() local x = 10 end` yields `[10]`, not the
empty list the claim states. -/
theorem c4_fallthrough_counterexample :
    runChunk 20 c4prog = some [.num (.int 10)]
    ∧ some [LuaValue.num (.int 10)] ≠ some ([] : List LuaValue) := by
  constructor
  · rfl
  · intro h
    have h2 := Option.some_injective _ h
    exact List.noConfusion h2

/-- Amended claim C4: a closure call whose body block has no return
statement yields the result list of the body's last executed statement when
that list is non-empty, and the empty list otherwise (so only bodies whose
last statement produced no values yield the empty list). -/
theorem c4_call_returns_last_statement_values (rec : Rec) (f : FuncV)
    (h : f.block.ret = none) (args : List EvalR) (st : State) :
    callFunctionF rec f args st =
      (execStmtsF rec f.block.stmts (scopePush st f.parentScope).2
          (bindParams (scopePush st f.parentScope).1 (scopePush st f.parentScope).2
            f.params (adjustVals args f.params.length))).bind
        (fun r st2 =>
          .ok (match r with | some (v :: vs) => v :: vs | _ => []) st2) := by
  simp only [callFunctionF, evalBlockNoScopeF, h]
  cases hres : execStmtsF rec f.block.stmts (scopePush st f.parentScope).2
      (bindParams (scopePush st f.parentScope).1 (scopePush st f.parentScope).2
        f.params (adjustVals args f.params.length)) with
  | ok r st2 =>
      simp only [EResult.bind]
      match r with
      | none => rfl
      | some [] => rfl
      | some (v :: vs) => rfl
  | err e st2 => simp only [EResult.bind]

/-- The closure of `c4prog`, defined at the root scope. -/
def c4closure : FuncV :=
  ⟨[], false, 0, .mk [.localAssignment [("x", none)] [.numeralDec 10]] none⟩

/-- Witness for the amended claim C4 at the concrete closure of `c4prog`:
its body has no return statement and the call reduces to the last
statement's value list. -/
theorem c4_call_returns_last_statement_values_witness :
    c4closure.block.ret = none
    ∧ callFunctionF (mkRec 5) c4closure [] initState =
        (execStmtsF (mkRec 5) c4closure.block.stmts
            (scopePush initState c4closure.parentScope).2
            (bindParams (scopePush initState c4closure.parentScope).1
              (scopePush initState c4closure.parentScope).2
              c4closure.params (adjustVals [] c4closure.params.length))).bind
          (fun r st2 =>
            .ok (match r with | some (v :: vs) => v :: vs | _ => []) st2) :=
  ⟨rfl, c4_call_returns_last_statement_values (mkRec 5) c4closure rfl [] initState⟩

/-- Program of claim C5 (overflow): `local t = {}; for i = 2^63-2, 2^63-1,
2 do t[i] = true end; return t[2^63-2], t[2^63-1]`. The single iteration
runs at `i = 2^63-2`; the incremented control value wraps around, the
overflow is detected and the loop stops even though the wrapped value would
satisfy the continuation test. -/
def c5prog : Block :=
  .mk [ .localAssignment [("t", none)] [.tableCons []],
        .forNum ("i") (.numeralDec 9223372036854775806)
          (.numeralDec 9223372036854775807) (some (.numeralDec 2))
          (.mk [ .assignment
                   [.varIndex (.varName ("t")) (.varName ("i"))] [.litTrue] ]
               none) ]
      (some [ .varIndex (.varName ("t")) (.numeralDec 9223372036854775806),
              .varIndex (.varName ("t")) (.numeralDec 9223372036854775807) ])

/-- Program of claim C5 (negative step): `local t = {}; for i = 3, 1, -1 do
t[i] = true end; return t[1], t[2], t[3]`. -/
def c5negProg : Block :=
  .mk [ .localAssignment [("t", none)] [.tableCons []],
        .forNum ("i") (.numeralDec 3) (.numeralDec 1)
          (some (.unaryNeg (.numeralDec 1)))
          (.mk [ .assignment
                   [.varIndex (.varName ("t")) (.varName ("i"))] [.litTrue] ]
               none) ]
      (some [ .varIndex (.varName ("t")) (.numeralDec 1),
              .varIndex (.varName ("t")) (.numeralDec 2),
              .varIndex (.varName ("t")) (.numeralDec 3) ])

/-- Program of claim C5 (direction selection): `local t = {}; for i = 1, 3,
-1 do t[i] = true end; return t[1]`. With a negative step the `>=` test is
selected, `1 >= 3` fails and the body never runs (under the `<=` test it
would have). -/
def c5negEmptyProg : Block :=
  .mk [ .localAssignment [("t", none)] [.tableCons []],
        .forNum ("i") (.numeralDec 1) (.numeralDec 3)
          (some (.unaryNeg (.numeralDec 1)))
          (.mk [ .assignment
                   [.varIndex (.varName ("t")) (.varName ("i"))] [.litTrue] ]
               none) ]
      (some [ .varIndex (.varName ("t")) (.numeralDec 1) ])

/-- Claim C5. First conjunct (universal): in an integer loop, when the
continuation test holds at `control` and adding the step overflows, the
loop executes the body for `control` and then stops — the returned
computation contains no further loop iteration, regardless of the wrapped
value. Remaining conjuncts: concrete runs showing the overflow stop
(`t[2^63-1]` stays nil and the loop terminates), the `>=` test with a
negative step (iterations 3, 2, 1 inclusive), and that a negative-step loop
whose start is below the limit runs zero iterations (the `<=` test is not
used). -/
theorem c5_for_direction_and_overflow :
    (∀ (rec : Rec) (condF : LuaNum → LuaNum → Bool) (stepN limit : LuaNum)
       (nameS : String) (body : Block) (innerSid : ℕ) (control : LuaNum)
       (st : State),
       condF control limit = true →
       (overflowArithAdd control stepN).1 = true →
       execForLoopF rec true condF stepN limit nameS body innerSid control st =
         (execStmtsF rec body.stmts innerSid
             (scopePutLocal st innerSid nameS (VarRec.plain (.num control)))).bind
           (fun _ st2 => .ok () st2))
    ∧ runChunk 30 c5prog = some [.bool true, .nil]
    ∧ runChunk 30 c5negProg = some [.bool true, .bool true, .bool true]
    ∧ runChunk 30 c5negEmptyProg = some [.nil] := by
  refine ⟨?_, rfl, rfl, rfl⟩
  intro rec condF stepN limit nameS body innerSid control st hcond hov
  unfold execForLoopF
  simp only [hcond, if_true]
  cases hres : execStmtsF rec body.stmts innerSid
      (scopePutLocal st innerSid nameS (VarRec.plain (.num control))) with
  | ok r st2 =>
      simp only [EResult.bind, hov, Bool.true_and, Bool.and_true, if_true]
  | err e st2 => simp only [EResult.bind]

/-- Witness for C5 at a concrete overflowing iteration: control value
`2^63 - 1`, limit `2^63 - 1`, step `1`, empty body. -/
theorem c5_for_direction_and_overflow_witness :
    relLeNum (.int MAX_INT64) (.int MAX_INT64) = true
    ∧ (overflowArithAdd (.int MAX_INT64) (.int 1)).1 = true
    ∧ execForLoopF (mkRec 1) true relLeNum (.int 1) (.int MAX_INT64) ("i")
        (.mk [] none) 0 (.int MAX_INT64) initState =
        (execStmtsF (mkRec 1) (Block.mk [] none).stmts 0
            (scopePutLocal initState 0 ("i")
              (VarRec.plain (.num (.int MAX_INT64))))).bind
          (fun _ st2 => .ok () st2) :=
  ⟨rfl, rfl,
   c5_for_direction_and_overflow.1 (mkRec 1) relLeNum (.int 1) (.int MAX_INT64)
     ("i") (.mk [] none) 0 (.int MAX_INT64) initState rfl rfl⟩

/-- Closure `function() return 10, 20 end` used by the C6 programs. -/
def fRet1020 : Expression :=
  .funcBody [] false (.mk [] (some [.numeralDec 10, .numeralDec 20]))

/-- Program of claim C6: `local f = function() return 10, 20 end;
local a, b, c = f(); return a, b, c`. -/
def c6aProg : Block :=
  .mk [ .localAssignment [("f", none)] [fRet1020],
        .localAssignment [("a", none), ("b", none), ("c", none)]
          [.callRegular (.varName ("f")) []] ]
      (some [.varName ("a"), .varName ("b"), .varName ("c")])

/-- Program of claim C6: `local f = function() return 10, 20 end;
local a, b = f(), f(); return a, b`. -/
def c6bProg : Block :=
  .mk [ .localAssignment [("f", none)] [fRet1020],
        .localAssignment [("a", none), ("b", none)]
          [.callRegular (.varName ("f")) [], .callRegular (.varName ("f")) []] ]
      (some [.varName ("a"), .varName ("b")])

/-- Claim C6. With `f` returning `(10, 20)`: `local a, b, c = f()` expands
the final call and nil-pads, giving `a=10, b=20, c=nil`; `local a, b =
f(), f()` truncates the non-final call to one value, giving `a=10, b=10`.
The last conjunct: the value-list adjustment used by both assignment forms
always produces exactly as many values as there are targets. -/
theorem c6_multivalue_adjustment :
    runChunk 20 c6aProg = some [.num (.int 10), .num (.int 20), .nil]
    ∧ runChunk 20 c6bProg = some [.num (.int 10), .num (.int 10)]
    ∧ ∀ (rs : List EvalR) (n : ℕ), (adjustVals rs n).length = n := by
  refine ⟨rfl, rfl, ?_⟩
  intro rs n
  simp only [adjustVals, List.length_append, List.length_take,
    List.length_replicate]
  omega

/-- Coercion to float preserves the zero test (`0.0 == 0` in Python). -/
theorem numIsZero_coerce (s : LuaNum) :
    numIsZero (coerceIntToFloat s) = numIsZero s := by
  cases s with
  | int i => rfl
  | float f => rfl

/-- Claim C8 as the code has it. Whenever the three control expressions of
a numeric for evaluate to numbers and the step is (mathematically) zero,
`For._execute` raises — in this snapshot a placeholder
`NotImplementedError`, not a `DomainError`-kind runtime error. -/
theorem c8_zero_step_raises (rec : Rec) (nameS : String)
    (startE stopE stepE : Expression) (body : Block) (sid : ℕ)
    (st st1 st2 st3 : State) (initial limit stepN : LuaNum)
    (h1 : evalSingleF rec startE sid st = .ok (.num initial) st1)
    (h2 : evalSingleF rec stopE sid st1 = .ok (.num limit) st2)
    (h3 : evalSingleF rec stepE sid st2 = .ok (.num stepN) st3)
    (hz : numIsZero stepN = true) :
    forExecuteF rec nameS startE stopE (some stepE) body sid st
      = .err .notImpl st3 := by
  unfold forExecuteF
  rw [h1]
  simp only [EResult.bind]
  rw [h2]
  simp only [EResult.bind]
  rw [h3]
  simp only [EResult.bind]
  cases initial with
  | int i =>
      cases stepN with
      | int j => simp [hz]
      | float f => simp [numIsZero_coerce, hz]
  | float f => simp [numIsZero_coerce, hz]

/-- Witness for C8: `for i = 1, 10, 0 do end` fails with the placeholder
error, the state unchanged. -/
theorem c8_zero_step_raises_witness :
    evalSingleF (mkRec 9) (.numeralDec 1) 0 initState
        = .ok (.num (.int 1)) initState
    ∧ evalSingleF (mkRec 9) (.numeralDec 10) 0 initState
        = .ok (.num (.int 10)) initState
    ∧ evalSingleF (mkRec 9) (.numeralDec 0) 0 initState
        = .ok (.num (.int 0)) initState
    ∧ numIsZero (.int 0) = true
    ∧ forExecuteF (mkRec 9) ("i") (.numeralDec 1) (.numeralDec 10)
        (some (.numeralDec 0)) (.mk [] none) 0 initState
        = .err .notImpl initState :=
  ⟨rfl, rfl, rfl, rfl,
   c8_zero_step_raises (mkRec 9) ("i") (.numeralDec 1) (.numeralDec 10)
     (.numeralDec 0) (.mk [] none) 0 initState initState initState initState
     (.int 1) (.int 10) (.int 0) rfl rfl rfl rfl⟩

end AyEmbed
